import Mathlib

/-!
Verification of `cargo-depsize` (src/main.rs) against its specification.

The development shallowly embeds the program's logic:
* `format_size` — the human-readable byte formatter (src/main.rs lines 58-72),
  including the `f64` rounding semantics of Rust's `{:.2}` formatting
  (round-to-nearest, ties-to-even, applied to the exact dyadic value of the double);
* `calculate_package_size` — the directory-size aggregator (lines 211-229), modelled
  over the stream of results yielded by the `ignore` crate walker;
* the orchestration in `calculate_and_display_depsize` (lines 101-209): task fan-in
  (`JoinSet` collection loop), latest-version selection per dependency name,
  row building, sorting, and rendering;
* `main`'s error path (lines 17-23).

External collaborators (cargo's resolver, the semver version type, the `ignore`
walker, tokio) appear as parameters or as explicit input streams: versions are an
arbitrary linear order (the semver crate's `Ord`), the walker's output is a list of
entry results, and each spawned task's joined outcome is an input value.
-/

namespace Depsize

/-! ### Size formatting (src/main.rs `format_size`, lines 58-72) -/

/-- `KB` constant from `format_size`. -/
def KB : Nat := 1024

/-- `MB` constant from `format_size`. -/
def MB : Nat := KB * 1024

/-- `GB` constant from `format_size`. -/
def GB : Nat := MB * 1024

/-- Round `n / d` (for `d > 0`) to the nearest integer, ties to even — the rounding
used both by `u64 as f64` conversion and by Rust's `{:.2}` float formatting. -/
def roundHalfEven (n d : Nat) : Nat :=
  let q := n / d
  let r := n % d
  if 2 * r < d then q
  else if d < 2 * r then q + 1
  else if q % 2 = 0 then q else q + 1

/-- The exact integer value of `size as f64` for a `u64`: values below `2^53` convert
exactly; larger values round to 53 significant bits (nearest, ties to even). -/
def toF64 (n : Nat) : Nat :=
  if n < 2 ^ 53 then n
  else
    let e := Nat.log2 n - 52
    roundHalfEven n (2 ^ e) * 2 ^ e

/-- Two-digit zero-padded rendering of a number below 100. -/
def pad2 (n : Nat) : String :=
  if n < 10 then "0" ++ Nat.repr n else Nat.repr n

/-- Rust's `format!("{:.2}", num / den)` for a nonnegative double of exact integer
value `num` divided by the power of two `den`: the quotient is a dyadic rational and
(the division being exact in `f64` for these magnitudes) `{:.2}` prints its correctly
rounded two-decimal form, ties to even. -/
def fmt2 (num den : Nat) : String :=
  let h := roundHalfEven (num * 100) den
  Nat.repr (h / 100) ++ "." ++ pad2 (h % 100)

/-- `format_size` (src/main.rs lines 58-72): pick GB / MB / KB / plain bytes by the
largest threshold not exceeding `size`; `{:?}` on a `u64` prints its decimal digits,
hence `Nat.repr size` for the parenthetical. -/
def format_size (size : Nat) : String :=
  if GB ≤ size then
    fmt2 (toF64 size) GB ++ "GB (" ++ Nat.repr size ++ " bytes)"
  else if MB ≤ size then
    fmt2 (toF64 size) MB ++ "MB (" ++ Nat.repr size ++ " bytes)"
  else if KB ≤ size then
    fmt2 (toF64 size) KB ++ "KB (" ++ Nat.repr size ++ " bytes)"
  else
    Nat.repr size ++ " bytes"

/-! ### Size aggregator (src/main.rs `calculate_package_size`, lines 211-229)

The `ignore` crate walker yields a stream of `Result<DirEntry, Error>` items; the
function iterates them: an `Err` item is printed to stderr and skipped; for an `Ok`
entry, `entry.file_type().unwrap()` panics when the file type is absent (the walker
yields `None` only for a synthetic stdin entry, never for path-rooted walks),
regular files get `fs::metadata` whose error aborts the whole function via `?`,
and the length is added to the running total. -/

/-- File type of a walk entry (`is_file()` is true only for `file`). -/
inductive FileType
  | file
  | dir
  | symlink
deriving DecidableEq

deriving instance DecidableEq for Except

/-- One `DirEntry` yielded by the walker: its optional file type (absent only for
the stdin entry) and the outcome `fs::metadata(path)` would have (length or error). -/
structure DirEntry where
  fileTypeOpt : Option FileType
  metadata : Except String Nat
deriving DecidableEq

/-- One item of the walker's output stream: `Result<DirEntry, ignore::Error>`. -/
abbrev WalkItem := Except String DirEntry

/-- Outcome of `calculate_package_size`: `Ok(total)`, `Err(io_error)` (propagated by
`?` from `fs::metadata`), or a panic from `.unwrap()` on a missing file type. -/
inductive AggOutcome
  | ok (total : Nat)
  | err (e : String)
  | panicked
deriving DecidableEq

/-- The aggregation loop of `calculate_package_size` with its running total. -/
def calcGo (acc : Nat) : List WalkItem → AggOutcome
  | [] => .ok acc
  | .error _ :: rest => calcGo acc rest
  | .ok entry :: rest =>
    match entry.fileTypeOpt with
    | none => .panicked
    | some ft =>
      if ft = FileType.file then
        match entry.metadata with
        | .error e => .err e
        | .ok len => calcGo (acc + len) rest
      else calcGo acc rest

/-- `calculate_package_size` (src/main.rs lines 211-229) over the walker's output. -/
def calculate_package_size (entries : List WalkItem) : AggOutcome :=
  calcGo 0 entries

/-- A directory tree under a package root: regular files with a byte size, symlinks,
and directories; each node carries whether an applicable ignore rule excludes it
(an ignored directory is pruned with its whole subtree). -/
inductive FsTree
  | file (size : Nat) (ignored : Bool)
  | symlink (ignored : Bool)
  | dir (ignored : Bool) (children : List FsTree)

mutual

/-- The stream a path-rooted walk of the tree produces (in one traversal order):
ignored entries are excluded from traversal, every yielded entry has a present file
type, and metadata reads succeed with the file's byte size. -/
def walkEntries : FsTree → List WalkItem
  | .file sz ig => if ig then [] else [.ok ⟨some FileType.file, .ok sz⟩]
  | .symlink ig => if ig then [] else [.ok ⟨some FileType.symlink, .ok 0⟩]
  | .dir ig ch => if ig then [] else .ok ⟨some FileType.dir, .ok 0⟩ :: walkForest ch

/-- Walk entries of a list of sibling subtrees. -/
def walkForest : List FsTree → List WalkItem
  | [] => []
  | t :: ts => walkEntries t ++ walkForest ts

end

mutual

/-- Specification-side size of a tree: the sum of the byte lengths of the
non-ignored regular files (directories, symlinks and ignored entries contribute
nothing). -/
def treeSize : FsTree → Nat
  | .file sz ig => if ig then 0 else sz
  | .symlink _ => 0
  | .dir ig ch => if ig then 0 else forestSize ch

/-- Specification-side size of a forest. -/
def forestSize : List FsTree → Nat
  | [] => 0
  | t :: ts => treeSize t + forestSize ts

end

/-- Contribution of one walk item to the total: the metadata length for an accepted
regular file, zero otherwise. -/
def itemWeight : WalkItem → Nat
  | .error _ => 0
  | .ok entry =>
    match entry.fileTypeOpt, entry.metadata with
    | some FileType.file, .ok len => len
    | _, _ => 0

/-- A walk item that triggers neither the panic nor the metadata error path. -/
def cleanItem : WalkItem → Bool
  | .error _ => true
  | .ok entry =>
    match entry.fileTypeOpt with
    | none => false
    | some ft => if ft = FileType.file then entry.metadata.isOk else true

/-- Walk items that survive the `Err(err) => eprintln!` arm (the `Ok` items). -/
def walkOk : WalkItem → Bool
  | .error _ => false
  | .ok _ => true

/-! ### Dependency size reporter (src/main.rs `calculate_and_display_depsize`)

Versions are the external semver crate's type: an arbitrary linear order `V`
(its `Ord` instance), rendered by a caller-supplied `vstr`. A resolved package is
identified by `(name, version)` as in the spec's data model; root paths only feed
the spawned size tasks, whose joined outcomes are modelled as an input list. -/

/-- Identity of a resolved package: `(name, version)`. -/
structure PackageId (V : Type) where
  name : String
  version : V
deriving DecidableEq

/-- `cargo::core::dependency::DepKind`. -/
inductive DepKind
  | normal
  | dev
  | build
deriving DecidableEq

/-- One dependency declaration of the root package: its package name and kind. -/
structure Dep where
  package_name : String
  kind : DepKind
deriving DecidableEq

/-- Lines 158-167: filter the root package's dependencies to `DepKind::Normal`, map
to `package_name`, and collect into a `HashSet<String>` (modelled as `dedup`; the
set's iteration order is arbitrary and the final output order is fixed later by the
sort). -/
def dep_names (deps : List Dep) : List String :=
  ((deps.filter (fun d => d.kind = DepKind.normal)).map (fun d => d.package_name)).dedup

/-- Rust's `Iterator::max_by_key` on versions: `none` on an empty iterator,
otherwise a fold that keeps the accumulator only when strictly greater, so among
equal maximal keys the last element wins. -/
def max_by_version {V : Type} [LinearOrder V] : List (PackageId V) → Option (PackageId V)
  | [] => none
  | p :: ps => some (ps.foldl (fun acc x => if x.version < acc.version then acc else x) p)

/-- Lines 170-180: resolve each distinct normal-dependency name to the resolved
package with that name of maximum version, dropping names with no match
(`filter_map`). The source collects the ids into a `HashSet<PackageId>`; that
dedup is a no-op because packages matching distinct names have distinct names. -/
def latest_versions {V : Type} [LinearOrder V] (pkgs : List (PackageId V))
    (deps : List Dep) : List (PackageId V) :=
  (dep_names deps).filterMap (fun n => max_by_version (pkgs.filter (fun p => p.name = n)))

/-- Line 191: the row label `format!("{} (v{})", name, version)`. -/
def mkLabel {V : Type} (vstr : V → String) (p : PackageId V) : String :=
  p.name ++ " (v" ++ vstr p.version ++ ")"

/-- Lines 186-196, body of the row-building loop for one id: look the id up in
`package_sizes` (skip the row when absent), then `pkg_set.get_one` (skip on `Err`),
then build `(label, size)`. -/
def rowOf {V : Type} [DecidableEq V] (vstr : V → String) (pkgs : List (PackageId V))
    (sizes : PackageId V → Option Nat) (pid : PackageId V) : Option (String × Nat) :=
  match sizes pid with
  | none => none
  | some sz =>
    match pkgs.find? (fun p => p = pid) with
    | none => none
    | some p => some (mkLabel vstr p, sz)

/-- Lines 182-196: the `package_infos` vector, one entry per surviving lookup. -/
def package_infos {V : Type} [LinearOrder V] [DecidableEq V] (vstr : V → String)
    (pkgs : List (PackageId V)) (sizes : PackageId V → Option Nat)
    (deps : List Dep) : List (String × Nat) :=
  (latest_versions pkgs deps).filterMap (rowOf vstr pkgs sizes)

/-- Lines 182-196: the running `sum` accumulated while pushing rows. -/
def report_sum {V : Type} [LinearOrder V] [DecidableEq V] (vstr : V → String)
    (pkgs : List (PackageId V)) (sizes : PackageId V → Option Nat)
    (deps : List Dep) : Nat :=
  (package_infos vstr pkgs sizes deps).foldl (fun s r => s + r.2) 0

/-- Line 199: `package_infos.sort_by_key(|k| k.1)` — a stable ascending sort on the
byte size (Rust's stable sort and `mergeSort` agree on the output list). -/
def sorted_infos {V : Type} [LinearOrder V] [DecidableEq V] (vstr : V → String)
    (pkgs : List (PackageId V)) (sizes : PackageId V → Option Nat)
    (deps : List Dep) : List (String × Nat) :=
  (package_infos vstr pkgs sizes deps).mergeSort (fun a b => decide (a.2 ≤ b.2))

/-- Rust `format!("{: <25}", s)`: left-align `s` in a field of minimum width 25,
filling with spaces on the right; longer strings are kept whole. -/
def pad_left_align (width : Nat) (s : String) : String :=
  s ++ String.mk (List.replicate (width - s.length) ' ')

/-- Line 203: one printed row, `format!("{: <25} : {}", name_ver, format_size(size))`. -/
def formatRow (label : String) (size : Nat) : String :=
  pad_left_align 25 label ++ " : " ++ format_size size

/-- Line 206: the final line `format!("> Total size: {}", format_size(sum))`. -/
def totalLine (sum : Nat) : String :=
  "> Total size: " ++ format_size sum

/-- Lines 202-206: everything printed to stdout, in order. -/
def report_lines {V : Type} [LinearOrder V] [DecidableEq V] (vstr : V → String)
    (pkgs : List (PackageId V)) (sizes : PackageId V → Option Nat)
    (deps : List Dep) : List String :=
  (sorted_infos vstr pkgs sizes deps).map (fun r => formatRow r.1 r.2) ++
    [totalLine (report_sum vstr pkgs sizes deps)]

/-- Per-name row: the composition of latest-version selection and row lookup, used
to decompose `package_infos` name by name. -/
def nameRow {V : Type} [LinearOrder V] [DecidableEq V] (vstr : V → String)
    (pkgs : List (PackageId V)) (sizes : PackageId V → Option Nat)
    (n : String) : Option (String × Nat) :=
  (max_by_version (pkgs.filter (fun p => p.name = n))).bind (rowOf vstr pkgs sizes)

/-! ### Task fan-in (src/main.rs lines 126-155) and `main` (lines 17-23) -/

/-- The joined outcome of one spawned size task, in completion order:
`Result<Result<(PackageId, u64), anyhow::Error>, JoinError>`. -/
abbrev TaskRes (V : Type) := Except String (Except String (PackageId V × Nat))

/-- Outcome of the collection loop (lines 152-155): the collected map, an early
`Err` return from `res?` on a join failure, or the panic of
`.expect("Failed to join")` on a task that joined with an `Err` result. -/
inductive CollectOutcome (V : Type)
  | collected (sizes : List (PackageId V × Nat))
  | joinFailed (e : String)
  | panicked
deriving DecidableEq

/-- The `while let Some(res) = join_set.join_next().await` loop; `insert` into the
`HashMap` is modelled by prepending, so a later insert shadows an earlier one under
`lookupSize`. -/
def collectGo {V : Type} (acc : List (PackageId V × Nat)) :
    List (TaskRes V) → CollectOutcome V
  | [] => .collected acc
  | .error e :: _ => .joinFailed e
  | .ok (.error _) :: _ => .panicked
  | .ok (.ok pr) :: rest => collectGo (pr :: acc) rest

/-- Lines 149-155: collect all joined task results into `package_sizes`. -/
def collect_sizes {V : Type} (results : List (TaskRes V)) : CollectOutcome V :=
  collectGo [] results

/-- `package_sizes.get(package_id)` on the collected association list. -/
def lookupSize {V : Type} [DecidableEq V] (m : List (PackageId V × Nat))
    (pid : PackageId V) : Option Nat :=
  (m.find? (fun e => e.1 = pid)).map (fun e => e.2)

/-- How one call of `calculate_and_display_depsize` ends: returns `Ok(())` after
printing `lines`, returns `Err(e)`, or panics. -/
inductive DepsizeOutcome
  | printed (lines : List String)
  | failed (e : String)
  | panicked (msg : String)
deriving DecidableEq

/-- `calculate_and_display_depsize` (src/main.rs lines 101-209) from the fan-in
loop onward: `results` is the joined task outcomes in completion order, `pkgs` the
resolved set, `deps` the root package's dependency declarations. -/
def calculate_and_display_depsize {V : Type} [LinearOrder V] [DecidableEq V]
    (vstr : V → String) (pkgs : List (PackageId V)) (deps : List Dep)
    (results : List (TaskRes V)) : DepsizeOutcome :=
  match collect_sizes results with
  | .joinFailed e => .failed e
  | .panicked => .panicked "Failed to join"
  | .collected m => .printed (report_lines vstr pkgs (lookupSize m) deps)

/-- How the process ends as seen from `main` (lines 17-23): normal exit with the
printed report, `eprintln!("Error: {:?}", err)` followed by `process::exit(1)`, or
a propagated panic (which takes neither of those paths). -/
inductive MainOutcome
  | exitZero (stdout : List String)
  | exitOne (stderr : String)
  | panicked (msg : String)
deriving DecidableEq

/-- `main` wrapping the reporter: `Err` becomes the `"Error: "`-prefixed diagnostic
and exit status 1; a panic bypasses that path entirely. -/
def main_outcome {V : Type} [LinearOrder V] [DecidableEq V] (vstr : V → String)
    (pkgs : List (PackageId V)) (deps : List Dep)
    (results : List (TaskRes V)) : MainOutcome :=
  match calculate_and_display_depsize vstr pkgs deps results with
  | .printed lines => .exitZero lines
  | .failed e => .exitOne ("Error: " ++ e)
  | .panicked msg => .panicked msg

/-! ## Theorems -/

/-- C2: for every `u64` byte count, `format_size` fires exactly one of four
branches — the one for the largest unit threshold (GB, MB, KB, else plain bytes)
not exceeding the count (the interval bounds in the four mutually exclusive and
exhaustive disjuncts identify the fired branch) — the parenthetical byte count
always equals the exact input `size` (never the divided value), and the six
documented examples hold exactly. -/
theorem format_size_correct :
    (format_size 1024 = "1.00KB (1024 bytes)" ∧
     format_size 1048576 = "1.00MB (1048576 bytes)" ∧
     format_size 1073741824 = "1.00GB (1073741824 bytes)" ∧
     format_size 100 = "100 bytes" ∧
     format_size 1023 = "1023 bytes" ∧
     format_size 1025 = "1.00KB (1025 bytes)") ∧
    ∀ size : Nat, size < 2 ^ 64 →
      (GB ≤ size ∧
        ∃ pre, format_size size = pre ++ "GB (" ++ Nat.repr size ++ " bytes)") ∨
      (MB ≤ size ∧ size < GB ∧
        ∃ pre, format_size size = pre ++ "MB (" ++ Nat.repr size ++ " bytes)") ∨
      (KB ≤ size ∧ size < MB ∧
        ∃ pre, format_size size = pre ++ "KB (" ++ Nat.repr size ++ " bytes)") ∨
      (size < KB ∧ format_size size = Nat.repr size ++ " bytes") := by
  constructor
  · exact ⟨by decide, by decide, by decide, by decide, by decide, by decide⟩
  · intro size _
    by_cases hg : GB ≤ size
    · exact Or.inl ⟨hg, fmt2 (toF64 size) GB, by simp [format_size, hg]⟩
    · by_cases hm : MB ≤ size
      · exact Or.inr (Or.inl ⟨hm, lt_of_not_ge hg,
          fmt2 (toF64 size) MB, by simp [format_size, hg, hm]⟩)
      · by_cases hk : KB ≤ size
        · exact Or.inr (Or.inr (Or.inl ⟨hk, lt_of_not_ge hm,
            fmt2 (toF64 size) KB, by simp [format_size, hg, hm, hk]⟩))
        · exact Or.inr (Or.inr (Or.inr ⟨lt_of_not_ge hk,
            by simp [format_size, hg, hm, hk]⟩))

/-- Witness for C2 at `size = 1025`. -/
theorem format_size_correct_witness :
    1025 < 2 ^ 64 ∧
    ((GB ≤ 1025 ∧
        ∃ pre, format_size 1025 = pre ++ "GB (" ++ Nat.repr 1025 ++ " bytes)") ∨
      (MB ≤ 1025 ∧ 1025 < GB ∧
        ∃ pre, format_size 1025 = pre ++ "MB (" ++ Nat.repr 1025 ++ " bytes)") ∨
      (KB ≤ 1025 ∧ 1025 < MB ∧
        ∃ pre, format_size 1025 = pre ++ "KB (" ++ Nat.repr 1025 ++ " bytes)") ∨
      (1025 < KB ∧ format_size 1025 = Nat.repr 1025 ++ " bytes")) :=
  ⟨by decide, format_size_correct.2 1025 (by decide)⟩

/-! ### Aggregator lemmas -/

/-- A clean stream aggregates to the sum of its item weights. -/
theorem calcGo_clean (l : List WalkItem) :
    ∀ acc : Nat, (∀ w ∈ l, cleanItem w = true) →
      calcGo acc l = AggOutcome.ok (acc + (l.map itemWeight).sum) := by
  induction l with
  | nil => intro acc _; simp [calcGo]
  | cons w rest ih =>
    intro acc h
    have hw := h w (List.mem_cons_self _ _)
    have hrest := fun x hx => h x (List.mem_cons_of_mem _ hx)
    cases w with
    | error e => simpa [calcGo, itemWeight] using ih acc hrest
    | ok entry =>
      obtain ⟨ftOpt, md⟩ := entry
      cases ftOpt with
      | none => simp [cleanItem] at hw
      | some ft =>
        cases ft with
        | file =>
          cases md with
          | error e => simp [cleanItem, Except.isOk, Except.toBool] at hw
          | ok len =>
            have := ih (acc + len) hrest
            simp [calcGo, itemWeight, this, Nat.add_assoc]
        | dir => simpa [calcGo, itemWeight] using ih acc hrest
        | symlink => simpa [calcGo, itemWeight] using ih acc hrest

mutual

/-- Every item yielded by a path-rooted walk of a tree is clean: present file type,
successful metadata. -/
theorem walkEntries_clean : ∀ (t : FsTree) (w : WalkItem),
    w ∈ walkEntries t → cleanItem w = true
  | .file sz ig, w, hw => by
    cases ig with
    | true => simp [walkEntries] at hw
    | false =>
      simp only [walkEntries, Bool.false_eq_true, if_false, List.mem_singleton] at hw
      subst hw; rfl
  | .symlink ig, w, hw => by
    cases ig with
    | true => simp [walkEntries] at hw
    | false =>
      simp only [walkEntries, Bool.false_eq_true, if_false, List.mem_singleton] at hw
      subst hw; rfl
  | .dir ig ch, w, hw => by
    cases ig with
    | true => simp [walkEntries] at hw
    | false =>
      simp only [walkEntries, Bool.false_eq_true, if_false, List.mem_cons] at hw
      cases hw with
      | inl h => subst h; rfl
      | inr h => exact walkForest_clean ch w h

/-- Every item yielded by walking a forest is clean. -/
theorem walkForest_clean : ∀ (ts : List FsTree) (w : WalkItem),
    w ∈ walkForest ts → cleanItem w = true
  | t :: ts, w, hw => by
    rw [walkForest, List.mem_append] at hw
    cases hw with
    | inl h => exact walkEntries_clean t w h
    | inr h => exact walkForest_clean ts w h

end

mutual

/-- The item weights of a tree's walk sum to the tree's size. -/
theorem walkEntries_weight : ∀ t : FsTree,
    ((walkEntries t).map itemWeight).sum = treeSize t
  | .file sz ig => by cases ig <;> simp [walkEntries, treeSize, itemWeight]
  | .symlink ig => by cases ig <;> simp [walkEntries, treeSize, itemWeight]
  | .dir ig ch => by
    cases ig with
    | true => simp [walkEntries, treeSize]
    | false =>
      have := walkForest_weight ch
      simp [walkEntries, treeSize, itemWeight, this]

/-- The item weights of a forest's walk sum to the forest's size. -/
theorem walkForest_weight : ∀ ts : List FsTree,
    ((walkForest ts).map itemWeight).sum = forestSize ts
  | [] => by simp [walkForest, forestSize]
  | t :: ts => by
    have h1 := walkEntries_weight t
    have h2 := walkForest_weight ts
    simp [walkForest, forestSize, h1, h2]

end

/-- C3: for every directory tree, `calculate_package_size` applied to the walker's
output — in any traversal order, i.e. on any permutation of the walk's items —
returns exactly the sum of the byte lengths of the non-ignored regular files;
symlinks, directories and ignored entries contribute nothing. -/
theorem calculate_package_size_correct (t : FsTree) (l : List WalkItem)
    (h : (walkEntries t).Perm l) :
    calculate_package_size l = AggOutcome.ok (treeSize t) := by
  have hclean : ∀ w ∈ l, cleanItem w = true := fun w hw =>
    walkEntries_clean t w (h.mem_iff.mpr hw)
  have hsum : (l.map itemWeight).sum = treeSize t := by
    rw [← (h.map itemWeight).sum_eq]
    exact walkEntries_weight t
  rw [calculate_package_size, calcGo_clean l 0 hclean, Nat.zero_add, hsum]

/-- Witness for C3: a tree with two kept files (3 and 5 bytes), an ignored file and
a symlink, walked in a reversed (hence permuted) order, sums to 8. -/
theorem calculate_package_size_correct_witness :
    (walkEntries (FsTree.dir false
        [FsTree.file 3 false, FsTree.file 7 true, FsTree.symlink false,
         FsTree.file 5 false])).Perm
      (walkEntries (FsTree.dir false
        [FsTree.file 3 false, FsTree.file 7 true, FsTree.symlink false,
         FsTree.file 5 false])).reverse ∧
    calculate_package_size (walkEntries (FsTree.dir false
        [FsTree.file 3 false, FsTree.file 7 true, FsTree.symlink false,
         FsTree.file 5 false])).reverse =
      AggOutcome.ok (treeSize (FsTree.dir false
        [FsTree.file 3 false, FsTree.file 7 true, FsTree.symlink false,
         FsTree.file 5 false])) :=
  ⟨(List.reverse_perm _).symm, calculate_package_size_correct _ _ (List.reverse_perm _).symm⟩

/-- Dropping the walker's `Err` items does not change the aggregation at any
accumulator: the `Err(err) => eprintln!` arm only logs and skips. -/
theorem calcGo_filter (l : List WalkItem) :
    ∀ acc : Nat, calcGo acc l = calcGo acc (l.filter walkOk) := by
  induction l with
  | nil => intro acc; rfl
  | cons w rest ih =>
    intro acc
    cases w with
    | error e => simpa [calcGo, List.filter, walkOk] using ih acc
    | ok entry =>
      obtain ⟨ftOpt, md⟩ := entry
      cases ftOpt with
      | none => simp [calcGo, List.filter, walkOk]
      | some ft =>
        cases ft with
        | file =>
          cases md with
          | error e => simp [calcGo, List.filter, walkOk]
          | ok len => simpa [calcGo, List.filter, walkOk] using ih (acc + len)
        | dir => simpa [calcGo, List.filter, walkOk] using ih acc
        | symlink => simpa [calcGo, List.filter, walkOk] using ih acc

/-- A successfully aggregated prefix just advances the accumulator. -/
theorem calcGo_append (pre : List WalkItem) :
    ∀ (acc n : Nat), calcGo acc pre = AggOutcome.ok n →
      ∀ l₂ : List WalkItem, calcGo acc (pre ++ l₂) = calcGo n l₂ := by
  induction pre with
  | nil =>
    intro acc n h l₂
    have : acc = n := by simpa [calcGo] using h
    subst this; rfl
  | cons w rest ih =>
    intro acc n h l₂
    cases w with
    | error e => exact ih acc n (by simpa [calcGo] using h) l₂
    | ok entry =>
      obtain ⟨ftOpt, md⟩ := entry
      cases ftOpt with
      | none => simp [calcGo] at h
      | some ft =>
        cases ft with
        | file =>
          cases md with
          | error e => simp [calcGo] at h
          | ok len => exact ih (acc + len) n (by simpa [calcGo] using h) l₂
        | dir => exact ih acc n (by simpa [calcGo] using h) l₂
        | symlink => exact ih acc n (by simpa [calcGo] using h) l₂

/-- C5: during one package's aggregation, an `Err` on an individual walk entry is
only logged and skipped — the result on any stream equals the result with the `Err`
items removed, so a failed entry contributes nothing and the rest of the tree is
still aggregated — whereas a metadata-read failure on an accepted regular file
aborts the whole aggregation, turning any successfully aggregated prefix into the
propagated error. -/
theorem package_size_error_asymmetry :
    (∀ l : List WalkItem,
      calculate_package_size l = calculate_package_size (l.filter walkOk)) ∧
    (∀ (pre post : List WalkItem) (e : String) (n : Nat),
      calculate_package_size pre = AggOutcome.ok n →
      calculate_package_size
          (pre ++ Except.ok ⟨some FileType.file, Except.error e⟩ :: post) =
        AggOutcome.err e) := by
  constructor
  · intro l; exact calcGo_filter l 0
  · intro pre post e n h
    rw [calculate_package_size, calcGo_append pre 0 n h]
    rfl

/-- Witness for C5: a clean 5-byte prefix followed by a file whose metadata read
fails aborts with that error, even with a 7-byte file after it. -/
theorem package_size_error_asymmetry_witness :
    calculate_package_size [Except.ok ⟨some FileType.file, Except.ok 5⟩] =
      AggOutcome.ok 5 ∧
    calculate_package_size
        ([Except.ok ⟨some FileType.file, Except.ok 5⟩] ++
          Except.ok ⟨some FileType.file, Except.error "stat failed"⟩ ::
            [Except.ok ⟨some FileType.file, Except.ok 7⟩]) =
      AggOutcome.err "stat failed" :=
  ⟨by decide, package_size_error_asymmetry.2
    [Except.ok ⟨some FileType.file, Except.ok 5⟩]
    [Except.ok ⟨some FileType.file, Except.ok 7⟩]
    "stat failed" 5 (by decide)⟩

/-- On a stream whose `Ok` entries all carry a file type, the aggregation never
panics: it is `ok` or `err`. -/
theorem calcGo_no_panic (l : List WalkItem) :
    ∀ acc : Nat, (∀ entry : DirEntry, Except.ok entry ∈ l → entry.fileTypeOpt.isSome) →
      (∃ n, calcGo acc l = AggOutcome.ok n) ∨ (∃ e, calcGo acc l = AggOutcome.err e) := by
  induction l with
  | nil => intro acc _; exact Or.inl ⟨acc, rfl⟩
  | cons w rest ih =>
    intro acc h
    have hrest : ∀ entry : DirEntry, Except.ok entry ∈ rest → entry.fileTypeOpt.isSome :=
      fun entry he => h entry (List.mem_cons_of_mem _ he)
    cases w with
    | error e => exact ih acc hrest
    | ok entry =>
      obtain ⟨ftOpt, md⟩ := entry
      cases ftOpt with
      | none => simpa using h ⟨none, md⟩ (List.mem_cons_self _ _)
      | some ft =>
        cases ft with
        | file =>
          cases md with
          | error e => exact Or.inr ⟨e, rfl⟩
          | ok len => exact ih (acc + len) hrest
        | dir => exact ih acc hrest
        | symlink => exact ih acc hrest

/-- C9: the aggregator has exactly two outcomes — a total byte count or a
propagated I/O error. The `unwrap` on `file_type()` cannot fail on entries produced
by a path-rooted walk: every such entry carries a file type (first conjunct), and
on any stream of such entries the result is `ok` or `err`, never the panic
(second conjunct). -/
theorem calculate_package_size_total :
    (∀ (t : FsTree) (entry : DirEntry),
      Except.ok entry ∈ walkEntries t → entry.fileTypeOpt.isSome) ∧
    (∀ l : List WalkItem,
      (∀ entry : DirEntry, Except.ok entry ∈ l → entry.fileTypeOpt.isSome) →
      (∃ n, calculate_package_size l = AggOutcome.ok n) ∨
        (∃ e, calculate_package_size l = AggOutcome.err e)) := by
  constructor
  · intro t entry he
    have hclean := walkEntries_clean t (Except.ok entry) he
    obtain ⟨ftOpt, md⟩ := entry
    cases ftOpt with
    | none => simp [cleanItem] at hclean
    | some ft => rfl
  · intro l h
    exact calcGo_no_panic l 0 h

/-- Witness for C9: a stream with a walk error, a directory, a file and a failing
metadata read — all `Ok` entries carry a file type — yields an `err`, not a panic. -/
theorem calculate_package_size_total_witness :
    (∀ entry : DirEntry,
      Except.ok entry ∈
        [Except.error "denied", Except.ok ⟨some FileType.dir, Except.ok 0⟩,
         Except.ok ⟨some FileType.file, Except.error "gone"⟩] →
      entry.fileTypeOpt.isSome) ∧
    ((∃ n, calculate_package_size
        [Except.error "denied", Except.ok ⟨some FileType.dir, Except.ok 0⟩,
         Except.ok ⟨some FileType.file, Except.error "gone"⟩] = AggOutcome.ok n) ∨
      (∃ e, calculate_package_size
        [Except.error "denied", Except.ok ⟨some FileType.dir, Except.ok 0⟩,
         Except.ok ⟨some FileType.file, Except.error "gone"⟩] = AggOutcome.err e)) := by
  have hft : ∀ entry : DirEntry,
      Except.ok entry ∈
        [Except.error "denied", Except.ok ⟨some FileType.dir, Except.ok 0⟩,
         Except.ok (⟨some FileType.file, Except.error "gone"⟩ : DirEntry)] →
      entry.fileTypeOpt.isSome := by
    intro entry he
    simp only [List.mem_cons, List.not_mem_nil, or_false] at he
    rcases he with h | h | h
    · exact Except.noConfusion h
    · injection h with h; subst h; rfl
    · injection h with h; subst h; rfl
  exact ⟨hft, calculate_package_size_total.2 _ hft⟩

/-! ### Reporter lemmas -/

/-- The running `sum` accumulated while pushing rows equals the sum of the row
sizes. -/
theorem foldl_snd_sum (l : List (String × Nat)) :
    ∀ acc : Nat, l.foldl (fun s r => s + r.2) acc = acc + (l.map Prod.snd).sum := by
  induction l with
  | nil => intro acc; simp
  | cons r rest ih => intro acc; simp [ih (acc + r.2), Nat.add_assoc]

/-- The size comparator used by the sort is transitive. -/
theorem size_le_trans (a b c : String × Nat) :
    decide (a.2 ≤ b.2) → decide (b.2 ≤ c.2) → decide (a.2 ≤ c.2) := by
  simp only [decide_eq_true_iff]
  exact Nat.le_trans

/-- The size comparator used by the sort is total. -/
theorem size_le_total (a b : String × Nat) :
    decide (a.2 ≤ b.2) || decide (b.2 ≤ a.2) := by
  simp only [Bool.or_eq_true, decide_eq_true_iff]
  exact Nat.le_total a.2 b.2

/-- C6: for every input configuration the rows appear in non-decreasing order of
byte size, the total equals the sum of the byte sizes of the printed rows, and with
zero dependencies no rows are printed and the total renders as `"0 bytes"`. -/
theorem report_sorted_and_total {V : Type} [LinearOrder V] [DecidableEq V]
    (vstr : V → String) (pkgs : List (PackageId V))
    (sizes : PackageId V → Option Nat) (deps : List Dep) :
    List.Sorted (· ≤ ·) ((sorted_infos vstr pkgs sizes deps).map Prod.snd) ∧
    report_sum vstr pkgs sizes deps =
      ((sorted_infos vstr pkgs sizes deps).map Prod.snd).sum ∧
    sorted_infos vstr pkgs sizes ([] : List Dep) = [] ∧
    report_lines vstr pkgs sizes ([] : List Dep) = ["> Total size: 0 bytes"] := by
  refine ⟨?_, ?_, ?_, ?_⟩
  · have hp := @List.sorted_mergeSort (String × Nat)
      (fun a b : String × Nat => decide (a.2 ≤ b.2))
      size_le_trans size_le_total (package_infos vstr pkgs sizes deps)
    rw [List.Sorted, List.pairwise_map]
    exact hp.imp (fun h => of_decide_eq_true h)
  · rw [report_sum, foldl_snd_sum, Nat.zero_add]
    exact (((List.mergeSort_perm (package_infos vstr pkgs sizes deps)
      (fun a b => decide (a.2 ≤ b.2))).map Prod.snd).sum_eq).symm
  · have h0 : dep_names ([] : List Dep) = [] := by simp [dep_names]
    simp [sorted_infos, package_infos, latest_versions, h0]
  · have h0 : dep_names ([] : List Dep) = [] := by simp [dep_names]
    have hz : totalLine 0 = "> Total size: 0 bytes" := by decide
    simp [report_lines, sorted_infos, package_infos, latest_versions, report_sum, h0, hz]

/-- `package_infos` decomposed name by name: latest-version selection composed
with the row lookup. -/
theorem package_infos_eq_nameRows {V : Type} [LinearOrder V] [DecidableEq V]
    (vstr : V → String) (pkgs : List (PackageId V))
    (sizes : PackageId V → Option Nat) (deps : List Dep) :
    package_infos vstr pkgs sizes deps =
      (dep_names deps).filterMap (nameRow vstr pkgs sizes) := by
  rw [package_infos, latest_versions, List.filterMap_filterMap]
  rfl

/-- An element on which `f` yields `none` can be filtered out of a `filterMap`
without changing the result. -/
theorem filterMap_drop_none {α β : Type _} [DecidableEq α] (f : α → Option β)
    (a : α) (hf : f a = none) :
    ∀ l : List α, l.filterMap f = (l.filter (fun x => !decide (x = a))).filterMap f := by
  intro l
  induction l with
  | nil => rfl
  | cons x rest ih =>
    rw [List.filter_cons]
    by_cases hx : x = a
    · subst hx
      have hc : (!decide (x = x)) = false := by simp
      rw [hc, if_neg (by simp), List.filterMap_cons, hf]
      exact ih
    · have hc : (!decide (x = a)) = true := by simp [hx]
      rw [hc, if_pos rfl]
      cases hfx : f x with
      | none => simp [List.filterMap_cons, hfx, ih]
      | some b => simp [List.filterMap_cons, hfx, ih]

/-- C7: a Normal-kind dependency name with no matching resolved package, or whose
selected maximum-version identity has no recorded size, is silently skipped: the
run still prints (no error is surfaced), the rows are exactly those of the other
names, and the omitted name contributes nothing to the total. -/
theorem lookup_miss_skips_row {V : Type} [LinearOrder V] [DecidableEq V]
    (vstr : V → String) (pkgs : List (PackageId V)) (deps : List Dep)
    (results : List (TaskRes V)) (m : List (PackageId V × Nat)) (name : String)
    (hcol : collect_sizes results = CollectOutcome.collected m)
    (hfail : (∀ p ∈ pkgs, ¬ p.name = name) ∨
      (∃ pid, max_by_version (pkgs.filter (fun p => p.name = name)) = some pid ∧
        lookupSize m pid = none)) :
    calculate_and_display_depsize vstr pkgs deps results =
      DepsizeOutcome.printed (report_lines vstr pkgs (lookupSize m) deps) ∧
    package_infos vstr pkgs (lookupSize m) deps =
      ((dep_names deps).filter (fun n => !decide (n = name))).filterMap
        (nameRow vstr pkgs (lookupSize m)) ∧
    report_sum vstr pkgs (lookupSize m) deps =
      ((((dep_names deps).filter (fun n => !decide (n = name))).filterMap
        (nameRow vstr pkgs (lookupSize m))).map Prod.snd).sum := by
  have hnr : nameRow vstr pkgs (lookupSize m) name = none := by
    cases hfail with
    | inl h =>
      have hnil : pkgs.filter (fun p => decide (p.name = name)) = [] := by
        rw [List.filter_eq_nil_iff]
        intro p hp
        simpa using h p hp
      rw [nameRow, hnil]
      rfl
    | inr h =>
      obtain ⟨pid, hmax, hnone⟩ := h
      rw [nameRow, hmax]
      simp [rowOf, hnone]
  refine ⟨?_, ?_, ?_⟩
  · simp [calculate_and_display_depsize, hcol]
  · rw [package_infos_eq_nameRows]
    exact filterMap_drop_none _ name hnr _
  · rw [report_sum, package_infos_eq_nameRows,
      filterMap_drop_none (nameRow vstr pkgs (lookupSize m)) name hnr,
      foldl_snd_sum, Nat.zero_add]

/-- Witness for C7: one resolved package `serde v1` of size 10, and a normal
dependency `ghost` with no matching resolved package — the run still prints and
`ghost` is skipped. -/
theorem lookup_miss_skips_row_witness :
    calculate_and_display_depsize Nat.repr [PackageId.mk "serde" 1]
        [Dep.mk "serde" DepKind.normal, Dep.mk "ghost" DepKind.normal]
        [Except.ok (Except.ok (PackageId.mk "serde" 1, 10))] =
      DepsizeOutcome.printed (report_lines Nat.repr [PackageId.mk "serde" 1]
        (lookupSize [(PackageId.mk "serde" 1, 10)])
        [Dep.mk "serde" DepKind.normal, Dep.mk "ghost" DepKind.normal]) ∧
    package_infos Nat.repr [PackageId.mk "serde" 1]
        (lookupSize [(PackageId.mk "serde" 1, 10)])
        [Dep.mk "serde" DepKind.normal, Dep.mk "ghost" DepKind.normal] =
      ((dep_names [Dep.mk "serde" DepKind.normal,
          Dep.mk "ghost" DepKind.normal]).filter
        (fun n => !decide (n = "ghost"))).filterMap
          (nameRow Nat.repr [PackageId.mk "serde" 1]
            (lookupSize [(PackageId.mk "serde" 1, 10)])) ∧
    report_sum Nat.repr [PackageId.mk "serde" 1]
        (lookupSize [(PackageId.mk "serde" 1, 10)])
        [Dep.mk "serde" DepKind.normal, Dep.mk "ghost" DepKind.normal] =
      (((((dep_names [Dep.mk "serde" DepKind.normal,
          Dep.mk "ghost" DepKind.normal]).filter
        (fun n => !decide (n = "ghost"))).filterMap
          (nameRow Nat.repr [PackageId.mk "serde" 1]
            (lookupSize [(PackageId.mk "serde" 1, 10)]))).map Prod.snd)).sum := by
  refine lookup_miss_skips_row Nat.repr _ _ _ _ "ghost" rfl (Or.inl ?_)
  intro p hp
  rw [List.mem_singleton] at hp
  subst hp
  decide

/-- C8 counterexample: Rust's `{: <25}` pads but never truncates, and it pads on
the right (left alignment), not the left. A 26-character label is printed whole —
not cut to 25 characters — and a short label gets its spaces after it, not before. -/
theorem row_truncation_counterexample :
    formatRow "abcdefghijklmnopqrstuvwxyz" 100 =
      "abcdefghijklmnopqrstuvwxyz : 100 bytes" ∧
    ("abcdefghijklmnopqrstuvwxyz" : String).length = 26 ∧
    formatRow "abcdefghijklmnopqrstuvwxyz" 100 ≠
      "abcdefghijklmnopqrstuvwxy" ++ " : " ++ format_size 100 ∧
    formatRow "ab" 100 = "ab                        : 100 bytes" ∧
    formatRow "ab" 100 ≠ "                       ab : 100 bytes" :=
  ⟨by decide, by decide, by decide, by decide, by decide⟩

/-- C8 as amended: every printed row is the label `"name (vVERSION)"` left-aligned
in a field of minimum width 25 — padded on the right with spaces when shorter, and
printed whole (never truncated) when 25 characters or longer — followed by the
separator `" : "` and the formatted size; the final line is `"> Total size: "`
followed by the formatted total. -/
theorem row_format_amended (label : String) (size sum : Nat) :
    (label.length < 25 →
      formatRow label size =
        label ++ String.mk (List.replicate (25 - label.length) ' ') ++ " : " ++
          format_size size ∧
      (pad_left_align 25 label).length = 25) ∧
    (25 ≤ label.length → formatRow label size = label ++ " : " ++ format_size size) ∧
    totalLine sum = "> Total size: " ++ format_size sum := by
  refine ⟨fun hlt => ⟨?_, ?_⟩, fun hge => ?_, rfl⟩
  · rw [formatRow, pad_left_align, String.append_assoc, String.append_assoc]
  · rw [pad_left_align, String.length_append]
    have : (String.mk (List.replicate (25 - label.length) ' ')).length =
        25 - label.length := by
      show (List.replicate (25 - label.length) ' ').length = 25 - label.length
      exact List.length_replicate _ _
    rw [this]
    omega
  · have hz : 25 - label.length = 0 := by omega
    rw [formatRow, pad_left_align, hz]
    have : String.mk (List.replicate 0 ' ') = "" := rfl
    rw [this, String.append_empty]

/-- Witness for C8's amended theorem: a 2-character label is padded to width 25 and
a 26-character label is printed whole. -/
theorem row_format_amended_witness :
    (("ab" : String).length < 25 ∧
      (formatRow "ab" 100 =
        "ab" ++ String.mk (List.replicate (25 - ("ab" : String).length) ' ') ++
          " : " ++ format_size 100 ∧
      (pad_left_align 25 "ab").length = 25)) ∧
    (25 ≤ ("abcdefghijklmnopqrstuvwxyz" : String).length ∧
      formatRow "abcdefghijklmnopqrstuvwxyz" 100 =
        "abcdefghijklmnopqrstuvwxyz" ++ " : " ++ format_size 100) :=
  ⟨⟨by decide, (row_format_amended "ab" 100 0).1 (by decide)⟩,
   ⟨by decide, (row_format_amended "abcdefghijklmnopqrstuvwxyz" 100 0).2.1 (by decide)⟩⟩

/-! ### Fan-in lemmas -/

/-- If the collection loop completes with a map, every joined result was doubly
`Ok`. -/
theorem collectGo_collected_sound {V : Type} (l : List (TaskRes V)) :
    ∀ (acc m : List (PackageId V × Nat)), collectGo acc l = CollectOutcome.collected m →
      ∀ x ∈ l, ∃ pr : PackageId V × Nat, x = Except.ok (Except.ok pr) := by
  induction l with
  | nil => intro acc m _ x hx; exact absurd hx (List.not_mem_nil x)
  | cons w rest ih =>
    intro acc m h x hx
    cases w with
    | error e => exact absurd h (by simp [collectGo])
    | ok inner =>
      cases inner with
      | error e => exact absurd h (by simp [collectGo])
      | ok pr =>
        rcases List.mem_cons.mp hx with hx1 | hx2
        · exact ⟨pr, hx1⟩
        · exact ih (pr :: acc) m h x hx2

/-- A prefix of doubly-`Ok` results only advances the accumulator. -/
theorem collectGo_clean_prefix {V : Type} (pre : List (TaskRes V)) :
    ∀ acc : List (PackageId V × Nat),
      (∀ x ∈ pre, ∃ pr : PackageId V × Nat, x = Except.ok (Except.ok pr)) →
      ∀ rest : List (TaskRes V), ∃ acc',
        collectGo acc (pre ++ rest) = collectGo acc' rest := by
  induction pre with
  | nil => intro acc _ rest; exact ⟨acc, rfl⟩
  | cons w pre' ih =>
    intro acc h rest
    obtain ⟨pr, hw⟩ := h w (List.mem_cons_self _ _)
    subst hw
    exact ih (pr :: acc) (fun x hx => h x (List.mem_cons_of_mem _ hx)) rest

/-- Without any joined-`Err` result the loop cannot hit the `expect` panic. -/
theorem collectGo_no_panic {V : Type} (l : List (TaskRes V)) :
    (∀ x ∈ l, ∀ e : String,
      ¬ x = Except.ok (Except.error e : Except String (PackageId V × Nat))) →
    ∀ acc : List (PackageId V × Nat), collectGo acc l ≠ CollectOutcome.panicked := by
  induction l with
  | nil => intro _ acc h; exact absurd h (by simp [collectGo])
  | cons w rest ih =>
    intro h acc
    cases w with
    | error e => simp [collectGo]
    | ok inner =>
      cases inner with
      | error e => exact absurd rfl (h _ (List.mem_cons_self _ _) e)
      | ok pr => exact ih (fun x hx => h x (List.mem_cons_of_mem _ hx)) (pr :: acc)

/-- C4: if any spawned size task fails to join (`res?` sees a `JoinError`) or any
task joins with an `Err` result (the `expect` panics), the whole run aborts and no
report is printed — regardless of whether the failing package would ever appear as
a report row. -/
theorem task_failure_aborts {V : Type} [LinearOrder V] [DecidableEq V]
    (vstr : V → String) (pkgs : List (PackageId V)) (deps : List Dep)
    (results : List (TaskRes V))
    (h : (∃ e, Except.error e ∈ results) ∨
      (∃ e, Except.ok (Except.error e : Except String (PackageId V × Nat)) ∈ results)) :
    (∀ lines, calculate_and_display_depsize vstr pkgs deps results ≠
      DepsizeOutcome.printed lines) ∧
    (∀ lines, main_outcome vstr pkgs deps results ≠ MainOutcome.exitZero lines) := by
  have hnc : ∀ m, collect_sizes results ≠ CollectOutcome.collected m := by
    intro m hm
    have hsound := collectGo_collected_sound results [] m hm
    cases h with
    | inl he =>
      obtain ⟨e, he⟩ := he
      obtain ⟨pr, hpr⟩ := hsound _ he
      exact Except.noConfusion hpr
    | inr he =>
      obtain ⟨e, he⟩ := he
      obtain ⟨pr, hpr⟩ := hsound _ he
      injection hpr with hpr
      exact Except.noConfusion hpr
  cases hc : collect_sizes results with
  | collected m => exact absurd hc (hnc m)
  | joinFailed e =>
    constructor <;> intro lines <;> simp [calculate_and_display_depsize, main_outcome, hc]
  | panicked =>
    constructor <;> intro lines <;> simp [calculate_and_display_depsize, main_outcome, hc]

/-- Witness for C4: one joined transitive-dependency task (not a report row) and
one join failure — nothing is printed. -/
theorem task_failure_aborts_witness :
    calculate_and_display_depsize Nat.repr ([] : List (PackageId Nat)) []
        [Except.ok (Except.ok (PackageId.mk "transitive" 1, 5)), Except.error "join"] ≠
      DepsizeOutcome.printed [] ∧
    main_outcome Nat.repr ([] : List (PackageId Nat)) []
        [Except.ok (Except.ok (PackageId.mk "transitive" 1, 5)), Except.error "join"] ≠
      MainOutcome.exitZero [] := by
  have h := task_failure_aborts Nat.repr ([] : List (PackageId Nat)) []
    [Except.ok (Except.ok (PackageId.mk "transitive" 1, 5)), Except.error "join"]
    (Or.inl ⟨"join", by decide⟩)
  exact ⟨h.1 [], h.2 []⟩

/-- C10: a task that joins successfully but returns `Err` makes the orchestrator
panic through `expect("Failed to join")` instead of returning the error: `main`
prints no `"Error: "` diagnostic and does not exit with status 1 for this failure
class (first conjunct); and the `expect` is unreachable — under every completion
order — exactly when every joined task returns `Ok` (second conjunct). -/
theorem err_result_panics {V : Type} [LinearOrder V] [DecidableEq V]
    (vstr : V → String) (pkgs : List (PackageId V)) (deps : List Dep) :
    (∀ (results pre post : List (TaskRes V)) (e : String),
      results = pre ++ Except.ok (Except.error e) :: post →
      (∀ x ∈ pre, ∃ pr : PackageId V × Nat, x = Except.ok (Except.ok pr)) →
      calculate_and_display_depsize vstr pkgs deps results =
        DepsizeOutcome.panicked "Failed to join" ∧
      main_outcome vstr pkgs deps results = MainOutcome.panicked "Failed to join" ∧
      ∀ msg, main_outcome vstr pkgs deps results ≠ MainOutcome.exitOne msg) ∧
    (∀ results : List (TaskRes V),
      (∀ x ∈ results, ∀ e : String,
        ¬ x = Except.ok (Except.error e : Except String (PackageId V × Nat))) ↔
      ∀ l, results.Perm l → collect_sizes l ≠ CollectOutcome.panicked) := by
  constructor
  · intro results pre post e hres hpre
    subst hres
    obtain ⟨acc', hacc⟩ := collectGo_clean_prefix pre [] hpre
      (Except.ok (Except.error e) :: post)
    have hcol : collect_sizes (pre ++ Except.ok (Except.error e) :: post) =
        CollectOutcome.panicked := by
      rw [collect_sizes, hacc]
      rfl
    refine ⟨?_, ?_, ?_⟩
    · simp [calculate_and_display_depsize, hcol]
    · simp [main_outcome, calculate_and_display_depsize, hcol]
    · intro msg
      simp [main_outcome, calculate_and_display_depsize, hcol]
  · intro results
    constructor
    · intro hgood l hperm
      exact collectGo_no_panic l
        (fun x hx e => hgood x (hperm.mem_iff.mpr hx) e) []
    · intro hsafe x hx e hxe
      subst hxe
      have hperm := List.perm_cons_erase hx
      exact hsafe _ hperm rfl

/-- Witness for C10: a clean joined task followed by a joined `Err` result — the
reporter panics with `"Failed to join"` and `main` takes neither exit path. -/
theorem err_result_panics_witness :
    calculate_and_display_depsize Nat.repr ([] : List (PackageId Nat)) []
        [Except.ok (Except.ok (PackageId.mk "a" 1, 4)),
         Except.ok (Except.error "metadata failed")] =
      DepsizeOutcome.panicked "Failed to join" ∧
    main_outcome Nat.repr ([] : List (PackageId Nat)) []
        [Except.ok (Except.ok (PackageId.mk "a" 1, 4)),
         Except.ok (Except.error "metadata failed")] =
      MainOutcome.panicked "Failed to join" := by
  have h := (err_result_panics Nat.repr ([] : List (PackageId Nat)) []).1
    [Except.ok (Except.ok (PackageId.mk "a" 1, 4)),
     Except.ok (Except.error "metadata failed")]
    [Except.ok (Except.ok (PackageId.mk "a" 1, 4))] [] "metadata failed" rfl
    (by
      intro x hx
      rw [List.mem_singleton] at hx
      subst hx
      exact ⟨(PackageId.mk "a" 1, 4), rfl⟩)
  exact ⟨h.1, h.2.1⟩

/-! ### Latest-version selection lemmas -/

/-- The `max_by_key` fold stays within the candidates. -/
theorem foldl_max_mem {V : Type} [LinearOrder V] (ps : List (PackageId V)) :
    ∀ acc : PackageId V,
      ps.foldl (fun acc x => if x.version < acc.version then acc else x) acc ∈
        acc :: ps := by
  induction ps with
  | nil => intro acc; exact List.mem_cons_self _ _
  | cons x ps ih =>
    intro acc
    rw [List.foldl_cons]
    by_cases hx : x.version < acc.version
    · rw [if_pos hx]
      rcases List.mem_cons.mp (ih acc) with h1 | h1
      · rw [h1]
        exact List.mem_cons_self _ _
      · exact List.mem_cons_of_mem _ (List.mem_cons_of_mem _ h1)
    · rw [if_neg hx]
      rcases List.mem_cons.mp (ih x) with h1 | h1
      · rw [h1]
        exact List.mem_cons_of_mem _ (List.mem_cons_self _ _)
      · exact List.mem_cons_of_mem _ (List.mem_cons_of_mem _ h1)

/-- The `max_by_key` fold dominates its start and all candidates. -/
theorem foldl_max_ge {V : Type} [LinearOrder V] (ps : List (PackageId V)) :
    ∀ acc : PackageId V,
      acc.version ≤
        (ps.foldl (fun acc x => if x.version < acc.version then acc else x) acc).version ∧
      ∀ q ∈ ps, q.version ≤
        (ps.foldl (fun acc x => if x.version < acc.version then acc else x) acc).version := by
  induction ps with
  | nil => intro acc; exact ⟨le_refl _, by simp⟩
  | cons x ps ih =>
    intro acc
    rw [List.foldl_cons]
    obtain ⟨h1, h2⟩ := ih (if x.version < acc.version then acc else x)
    have hacc : acc.version ≤ (if x.version < acc.version then acc else x).version := by
      by_cases hx : x.version < acc.version
      · simp only [if_pos hx]
        exact le_refl _
      · simp only [if_neg hx]
        exact le_of_not_lt hx
    have hx' : x.version ≤ (if x.version < acc.version then acc else x).version := by
      by_cases hx : x.version < acc.version
      · simp only [if_pos hx]
        exact le_of_lt hx
      · simp only [if_neg hx]
        exact le_refl _
    refine ⟨le_trans hacc h1, ?_⟩
    intro q hq
    rcases List.mem_cons.mp hq with h | h
    · rw [h]
      exact le_trans hx' h1
    · exact h2 q h

/-- `max_by_version` returns an element of the list. -/
theorem max_by_version_mem {V : Type} [LinearOrder V] (l : List (PackageId V))
    (p : PackageId V) (h : max_by_version l = some p) : p ∈ l := by
  cases l with
  | nil => exact absurd h (by simp [max_by_version])
  | cons x xs =>
    rw [max_by_version] at h
    injection h with h
    rw [← h]
    exact foldl_max_mem xs x

/-- `max_by_version` dominates every element of the list. -/
theorem max_by_version_ge {V : Type} [LinearOrder V] (l : List (PackageId V))
    (p : PackageId V) (h : max_by_version l = some p) :
    ∀ q ∈ l, q.version ≤ p.version := by
  cases l with
  | nil => intro q hq; exact absurd hq (List.not_mem_nil q)
  | cons x xs =>
    rw [max_by_version] at h
    injection h with h
    intro q hq
    obtain ⟨h1, h2⟩ := foldl_max_ge xs x
    rcases List.mem_cons.mp hq with hx | hx
    · rw [hx, ← h]
      exact h1
    · rw [← h]
      exact h2 q hx

/-- Filtering a deduplicated name list's selections down to one name leaves exactly
the package selected for that name. -/
theorem filterMap_filter_name {V : Type} [LinearOrder V] [DecidableEq V]
    (f : String → Option (PackageId V)) (name : String) (pmax : PackageId V)
    (hf : f name = some pmax) (hpm : pmax.name = name)
    (hname : ∀ n q, f n = some q → q.name = n) :
    ∀ names : List String, names.Nodup → name ∈ names →
      (names.filterMap f).filter (fun p => p.name = name) = [pmax] := by
  intro names
  induction names with
  | nil => intro _ h; exact absurd h (List.not_mem_nil _)
  | cons n ns ih =>
    intro hnd hmem
    obtain ⟨hnotin, hnd'⟩ := List.nodup_cons.mp hnd
    by_cases hn : n = name
    · subst hn
      rw [List.filterMap_cons, hf, List.filter_cons, if_pos (by simp [hpm])]
      suffices hnil : (ns.filterMap f).filter (fun p => decide (p.name = n)) = [] by
        rw [hnil]
      rw [List.filter_eq_nil_iff]
      intro q hq
      obtain ⟨n', hn', hfn'⟩ := List.mem_filterMap.mp hq
      have hq' : q.name = n' := hname n' q hfn'
      have hne : n' ≠ n := fun hcc => hnotin (hcc ▸ hn')
      simp [hq', hne]
    · have hmem' : name ∈ ns := by
        rcases List.mem_cons.mp hmem with h | h
        · exact absurd h.symm hn
        · exact h
      rw [List.filterMap_cons]
      cases hfn : f n with
      | none => exact ih hnd' hmem'
      | some q =>
        have hqn : q.name = n := hname n q hfn
        rw [List.filter_cons, if_neg (by simp [hqn, hn])]
        exact ih hnd' hmem'

/-- `pkg_set.get_one` on an id taken from the set returns that id's package. -/
theorem find?_eq_self {V : Type} [DecidableEq V] (pkgs : List (PackageId V))
    (pid : PackageId V) (h : pid ∈ pkgs) :
    pkgs.find? (fun p => p = pid) = some pid := by
  have hs : (pkgs.find? (fun p => decide (p = pid))).isSome :=
    List.find?_isSome.mpr ⟨pid, h, by simp⟩
  obtain ⟨a, ha⟩ := Option.isSome_iff_exists.mp hs
  have ha' := List.find?_some ha
  simp only [decide_eq_true_eq] at ha'
  rw [ha, ha']

/-- A `filterMap` by an everywhere-`some` function keeps the length. -/
theorem filterMap_length_of_all_some {α β : Type _} (f : α → Option β) :
    ∀ l : List α, (∀ x ∈ l, (f x).isSome) → (l.filterMap f).length = l.length := by
  intro l
  induction l with
  | nil => intro _; rfl
  | cons x rest ih =>
    intro h
    obtain ⟨b, hb⟩ := Option.isSome_iff_exists.mp (h x (List.mem_cons_self _ _))
    rw [List.filterMap_cons, hb, List.length_cons, List.length_cons,
      ih (fun y hy => h y (List.mem_cons_of_mem _ hy))]

/-- Every selected latest-version id is a resolved package. -/
theorem latest_versions_subset {V : Type} [LinearOrder V] [DecidableEq V]
    (pkgs : List (PackageId V)) (deps : List Dep) :
    ∀ pid ∈ latest_versions pkgs deps, pid ∈ pkgs := by
  intro pid hpid
  obtain ⟨n, _, hmax⟩ := List.mem_filterMap.mp hpid
  exact (List.mem_filter.mp (max_by_version_mem _ _ hmax)).1

/-- C1: for each distinct name among the root's Normal-kind dependency declarations
(duplicate declarations count once, `dep_names` being deduplicated), provided some
resolved package bears the name and — as holds whenever the report is reached —
every resolved package has a recorded size, the report emits exactly one row for
that name: exactly one selected id bears the name (the singleton `filter`), it is a
resolved package of maximal version among all resolved packages with that name (not
only the requested one), each selected id yields exactly one row (the length
equality), and the name's row carries that maximal package's label and size. -/
theorem one_row_per_name {V : Type} [LinearOrder V] [DecidableEq V]
    (vstr : V → String) (pkgs : List (PackageId V)) (deps : List Dep)
    (sizes : PackageId V → Option Nat)
    (hall : ∀ p ∈ pkgs, (sizes p).isSome)
    (name : String) (hdep : name ∈ dep_names deps)
    (hex : ∃ p ∈ pkgs, p.name = name) :
    ∃ pmax ∈ pkgs, pmax.name = name ∧
      (∀ q ∈ pkgs, q.name = name → q.version ≤ pmax.version) ∧
      (latest_versions pkgs deps).filter (fun p => p.name = name) = [pmax] ∧
      (package_infos vstr pkgs sizes deps).length =
        (latest_versions pkgs deps).length ∧
      ∃ sz, sizes pmax = some sz ∧
        rowOf vstr pkgs sizes pmax = some (mkLabel vstr pmax, sz) ∧
        (mkLabel vstr pmax, sz) ∈ sorted_infos vstr pkgs sizes deps := by
  obtain ⟨p0, hp0, hp0n⟩ := hex
  have hp0f : p0 ∈ pkgs.filter (fun p => p.name = name) :=
    List.mem_filter.mpr ⟨hp0, by simp [hp0n]⟩
  cases hmaxeq : max_by_version (pkgs.filter (fun p => p.name = name)) with
  | none =>
    exfalso
    cases hfl : pkgs.filter (fun p => decide (p.name = name)) with
    | nil => rw [hfl] at hp0f; exact List.not_mem_nil p0 hp0f
    | cons y ys => rw [hfl, max_by_version] at hmaxeq; exact Option.noConfusion hmaxeq
  | some pmax =>
    have hmemf := max_by_version_mem _ _ hmaxeq
    obtain ⟨hpm_pkgs, hpm_dec⟩ := List.mem_filter.mp hmemf
    have hpm_name : pmax.name = name := by simpa using hpm_dec
    have hge : ∀ q ∈ pkgs, q.name = name → q.version ≤ pmax.version := by
      intro q hq hqn
      exact max_by_version_ge _ _ hmaxeq q (List.mem_filter.mpr ⟨hq, by simp [hqn]⟩)
    have hsingle : (latest_versions pkgs deps).filter (fun p => p.name = name) =
        [pmax] := by
      rw [latest_versions]
      exact filterMap_filter_name
        (fun n => max_by_version (pkgs.filter (fun p => p.name = n))) name pmax
        hmaxeq hpm_name
        (fun n q hfq => by
          simpa using (List.mem_filter.mp (max_by_version_mem _ _ hfq)).2)
        (dep_names deps) (List.nodup_dedup _) hdep
    have hrows : ∀ pid ∈ latest_versions pkgs deps,
        (rowOf vstr pkgs sizes pid).isSome := by
      intro pid hpid
      have hmem := latest_versions_subset pkgs deps pid hpid
      obtain ⟨sz, hsz⟩ := Option.isSome_iff_exists.mp (hall pid hmem)
      rw [rowOf, hsz, find?_eq_self pkgs pid hmem]
      rfl
    have hlen : (package_infos vstr pkgs sizes deps).length =
        (latest_versions pkgs deps).length :=
      filterMap_length_of_all_some _ _ hrows
    obtain ⟨sz, hsz⟩ := Option.isSome_iff_exists.mp (hall pmax hpm_pkgs)
    have hrow : rowOf vstr pkgs sizes pmax = some (mkLabel vstr pmax, sz) := by
      rw [rowOf, hsz, find?_eq_self pkgs pmax hpm_pkgs]
    have hlatmem : pmax ∈ latest_versions pkgs deps := by
      have : pmax ∈ (latest_versions pkgs deps).filter (fun p => p.name = name) := by
        rw [hsingle]
        exact List.mem_cons_self _ _
      exact (List.mem_filter.mp this).1
    refine ⟨pmax, hpm_pkgs, hpm_name, hge, hsingle, hlen, sz, hsz, hrow, ?_⟩
    rw [sorted_infos, List.mem_mergeSort]
    exact List.mem_filterMap.mpr ⟨pmax, hlatmem, hrow⟩

/-- Witness for C1: `a` resolved at versions 1 and 2 plus an unrelated `b`, `a`
declared twice as a normal dependency — one row, for `a v2`. -/
theorem one_row_per_name_witness :
    ∃ pmax ∈ [PackageId.mk "a" 1, PackageId.mk "a" 2, PackageId.mk "b" 7],
      pmax.name = "a" ∧
      (∀ q ∈ [PackageId.mk "a" 1, PackageId.mk "a" 2, PackageId.mk "b" 7],
        q.name = "a" → q.version ≤ pmax.version) ∧
      (latest_versions [PackageId.mk "a" 1, PackageId.mk "a" 2, PackageId.mk "b" 7]
        [Dep.mk "a" DepKind.normal, Dep.mk "a" DepKind.normal]).filter
          (fun p => p.name = "a") = [pmax] ∧
      (package_infos Nat.repr
          [PackageId.mk "a" 1, PackageId.mk "a" 2, PackageId.mk "b" 7]
          (fun pid => some (10 * pid.version))
          [Dep.mk "a" DepKind.normal, Dep.mk "a" DepKind.normal]).length =
        (latest_versions [PackageId.mk "a" 1, PackageId.mk "a" 2, PackageId.mk "b" 7]
          [Dep.mk "a" DepKind.normal, Dep.mk "a" DepKind.normal]).length ∧
      ∃ sz, (fun pid : PackageId Nat => some (10 * pid.version)) pmax = some sz ∧
        rowOf Nat.repr [PackageId.mk "a" 1, PackageId.mk "a" 2, PackageId.mk "b" 7]
          (fun pid => some (10 * pid.version)) pmax =
            some (mkLabel Nat.repr pmax, sz) ∧
        (mkLabel Nat.repr pmax, sz) ∈ sorted_infos Nat.repr
          [PackageId.mk "a" 1, PackageId.mk "a" 2, PackageId.mk "b" 7]
          (fun pid => some (10 * pid.version))
          [Dep.mk "a" DepKind.normal, Dep.mk "a" DepKind.normal] :=
  one_row_per_name Nat.repr
    [PackageId.mk "a" 1, PackageId.mk "a" 2, PackageId.mk "b" 7]
    [Dep.mk "a" DepKind.normal, Dep.mk "a" DepKind.normal]
    (fun pid => some (10 * pid.version))
    (fun p _ => rfl)
    "a" (by decide)
    ⟨PackageId.mk "a" 1, by decide, rfl⟩

end Depsize
